import Mathlib

/-!
Shallow embedding of `src/powerservice/client.py` (classes `DataValidator`
and `MapReduce`) and proofs about the validation / aggregation pipeline.

Modelling conventions:
* A pandas DataFrame of trade records is a `List` of row records.  Cell
  values that can be `NaN` in pandas are `Option`s (`none` = missing).
* The four data-quality flag columns are `Option Bool` per row: `none`
  models a `NaN` cell in a flag column (as produced for synthesized
  missing-slot rows, whose format/volume flags are never filled).
  In pandas logical `|` over object columns, `NaN` is coerced to `False`;
  `flagTrue` reproduces that coercion.
* Presence of the merge-sensitive flag columns (`unexpected_time`,
  `missing_time`) on a table is tracked by a table-level `flagged` bit:
  `DataValidator._check_unexpected_time` / `_check_missing_time` perform a
  `merge` whose right side carries a column of that name, so running them
  on a table that already has the column produces `_x`/`_y` suffixed
  columns and the subsequent `validated_df['unexpected_time']`
  (resp. `['missing_time']`) read raises a `KeyError`.  This is modelled
  by `Except String`.
* Machine floats in the `volume` column are modelled as exact rationals.
* Time zones are modelled as fixed offsets in minutes (`Int`): local wall
  clock = absolute instant + offset.
-/

/-! ### Characters, digits and "HH:MM" formatting -/

def isDigitCh (c : Char) : Bool := '0' ≤ c && c ≤ '9'

def dval (c : Char) : Nat := c.toNat - '0'.toNat

def digitChar (d : Nat) : Char := Char.ofNat (48 + d)

/-- strftime "%H:%M" of a minute-of-day value. -/
def minutesToHHMM (m : Nat) : String :=
  String.mk [digitChar (m / 60 / 10), digitChar (m / 60 % 10), ':',
             digitChar (m % 60 / 10), digitChar (m % 60 % 10)]

/-- Slots from `pd.date_range("00:00", "23:59", freq="5min")` rendered with
strftime "%H:%M": the 288 canonical five-minute slots. -/
def canonicalSlots : List String :=
  (List.range 288).map (fun k => minutesToHHMM (5 * k))

/-! ### Python `time.strptime(s, '%H:%M')`

CPython compiles the format to the regex `(2[0-3]|[0-1]\d|\d):([0-5]\d|\d)`
(alternatives tried left to right, match anchored at the start only) and
then raises `ValueError` unless the match consumed the whole string.  The
three functions below simulate exactly that matcher; they return the
number of characters consumed by the (leftmost) regex match, if any. -/

def minuteMatch : List Char → Option Nat
  | c1 :: c2 :: _ =>
      if ('0' ≤ c1 && c1 ≤ '5') && isDigitCh c2 then some 2
      else if isDigitCh c1 then some 1 else none
  | [c1] => if isDigitCh c1 then some 1 else none
  | [] => none

def restMatch : List Char → Option Nat
  | c :: rs => if c = ':' then (minuteMatch rs).map (· + 1) else none
  | [] => none

def hmMatch (cs : List Char) : Option Nat :=
  (match cs with
   | c1 :: c2 :: rs =>
       if c1 = '2' && ('0' ≤ c2 && c2 ≤ '3') then (restMatch rs).map (· + 2) else none
   | _ => none) <|>
  (match cs with
   | c1 :: c2 :: rs =>
       if ('0' ≤ c1 && c1 ≤ '1') && isDigitCh c2 then (restMatch rs).map (· + 2) else none
   | _ => none) <|>
  (match cs with
   | c1 :: rs => if isDigitCh c1 then (restMatch rs).map (· + 1) else none
   | _ => none)

/-- Predicate `DataValidator._is_hh_mm_time`: `time.strptime(str(s), '%H:%M')`
succeeds iff the regex match consumes the whole string. -/
def _is_hh_mm_time (s : String) : Bool := hmMatch s.data == some s.data.length

/-! ### `pd.to_numeric(..., errors='coerce')` on a string cell

Modelled on the plain decimal fragment: optional sign, then digits with at
most one decimal point and at least one digit.  A cell that is `NaN`
(absent) or fails to parse coerces to `NaN`, i.e. `none`. -/

def digitsVal (cs : List Char) : Nat := cs.foldl (fun a c => 10 * a + dval c) 0

def decimalVal (cs : List Char) : Option ℚ :=
  match cs.span (fun c => c ≠ '.') with
  | (intPart, []) =>
      if intPart ≠ [] ∧ intPart.all isDigitCh then some ((digitsVal intPart : ℚ)) else none
  | (intPart, _ :: fracPart) =>
      if (intPart ≠ [] ∨ fracPart ≠ []) ∧ intPart.all isDigitCh ∧ fracPart.all isDigitCh then
        some ((digitsVal intPart : ℚ) + (digitsVal fracPart : ℚ) / ((10 : ℚ) ^ fracPart.length))
      else none

def to_numeric : Option String → Option ℚ
  | none => none
  | some s =>
      match s.data with
      | '-' :: rest => (decimalVal rest).map (fun q => -q)
      | '+' :: rest => decimalVal rest
      | cs => decimalVal cs

/-! ### Data model of the validator -/

/-- One row of an input batch (columns `id`, `date`, `time`, `volume`).
`id` and `date` are the batch's identifying fields and are taken to be
present; `volume` may be absent (`NaN`). -/
structure RawRow where
  id : String
  date : String
  time : String
  volume : Option String
deriving DecidableEq, Repr

/-- One row of a (partially) validated table.  `id`/`date` are `Option`
because synthesized missing-slot rows are born with `NaN` there (filled by
`ffill` afterwards, which leaves them `NaN` for an empty batch). -/
structure VRow where
  id : Option String
  date : Option String
  time : String
  volume : Option String
  invalid_time_format : Option Bool
  invalid_volume : Option Bool
  unexpected_time : Option Bool
  missing_time : Option Bool
deriving DecidableEq, Repr

/-- A table together with the presence bit for the merge-sensitive flag
columns (`unexpected_time` / `missing_time`); see the header comment. -/
structure DF where
  rows : List VRow
  flagged : Bool
deriving DecidableEq, Repr

/-- Conversion of a raw batch (columns `id,date,time,volume` only) to a
table: no flag column is present yet. -/
def toDF (batch : List RawRow) : DF :=
  { rows := batch.map (fun r =>
      { id := some r.id, date := some r.date, time := r.time, volume := r.volume,
        invalid_time_format := none, invalid_volume := none,
        unexpected_time := none, missing_time := none }),
    flagged := false }

/-- pandas coercion of a flag cell in a logical `|`: `NaN` counts as
`False`. -/
def flagTrue : Option Bool → Bool
  | some b => b
  | none => false

namespace DataValidator

/-- Row part of `_check_invalid_time_format`: column assignment
`validated_df['invalid_time_format'] = ~validated_df['time'].apply(_is_hh_mm_time)`. -/
def rowsITF (rows : List VRow) : List VRow :=
  rows.map (fun r => { r with invalid_time_format := some (!_is_hh_mm_time r.time) })

/-- Row part of `_check_invalid_volume`:
`pd.to_numeric(validated_df['volume'], errors='coerce').isnull()`. -/
def rowsIV (rows : List VRow) : List VRow :=
  rows.map (fun r => { r with invalid_volume := some ((to_numeric r.volume).isNone) })

/-- Row part of `_check_unexpected_time`: left-join against the canonical
slot table on `time`, then `fillna(True)` — a row's flag is `False` iff
its `time` is one of the 288 canonical strings. -/
def rowsUT (rows : List VRow) : List VRow :=
  rows.map (fun r => { r with unexpected_time := some (!canonicalSlots.contains r.time) })

/-- The rows synthesized by `_check_missing_time`: one per canonical slot
absent from the table's `time` values, in slot order (the right-join
keeps the slot table's order), with every other cell `NaN` and
`missing_time = True`. -/
def synthRows (rows : List VRow) : List VRow :=
  (canonicalSlots.filter (fun s => !((rows.map (·.time)).contains s))).map (fun s =>
    { id := none, date := none, time := s, volume := none,
      invalid_time_format := none, invalid_volume := none,
      unexpected_time := none, missing_time := some true })

/-- Step `validated_df.loc[:, ['date', 'id']].ffill()`: forward-fill of the
`id` and `date` columns in table order. -/
def ffillIdDate (lid ldate : Option String) : List VRow → List VRow
  | [] => []
  | r :: rs =>
      let nid := match r.id with | some v => some v | none => lid
      let nd := match r.date with | some v => some v | none => ldate
      { r with id := nid, date := nd } :: ffillIdDate nid nd rs

/-- Row part of `_check_missing_time`: concat of the existing rows (their
fresh `missing_time` column filled `False` by `fillna`) with the
synthesized rows, then the `ffill` of `id`/`date`. -/
def rowsMT (rows : List VRow) : List VRow :=
  ffillIdDate none none
    ((rows.map (fun r => { r with missing_time := some false })) ++ synthRows rows)

def _check_invalid_time_format (df : DF) : DF := ⟨rowsITF df.rows, df.flagged⟩

def _check_invalid_volume (df : DF) : DF := ⟨rowsIV df.rows, df.flagged⟩

/-- Method `_check_unexpected_time` merges a right table that carries an
`unexpected_time` column; if the input already has that column the merge
suffixes both and the following `validated_df['unexpected_time']` read
raises `KeyError`. -/
def _check_unexpected_time (df : DF) : Except String DF :=
  if df.flagged then .error "KeyError: unexpected_time"
  else .ok ⟨rowsUT df.rows, df.flagged⟩

/-- Method `_check_missing_time` has the same merge hazard on its `missing_time` column;
on a clean table it appends the synthesized rows and sets the flag
columns as present. -/
def _check_missing_time (df : DF) : Except String DF :=
  if df.flagged then .error "KeyError: missing_time"
  else .ok ⟨rowsMT df.rows, true⟩

/-- Method `DataValidator.validate`: works on a copy of the input and chains the
four checks. -/
def validate (df : DF) : Except String DF := do
  let v1 := _check_invalid_time_format df
  let v2 := _check_invalid_volume v1
  let v3 ← _check_unexpected_time v2
  let v4 ← _check_missing_time v3
  return v4

/-- Caller-visible state of the argument after `validate` returns: the
method immediately copies (`validated_df = df.copy()`) and only ever
assigns into the copy, so the caller's table is untouched. -/
def validate_input_after (df : DF) : DF := df

/-- Method `get_valid_trades`: rows where no flag is set (pandas `|` over the
four flag columns with `NaN` coerced to `False`, then `~`). -/
def exceptionMask (r : VRow) : Bool :=
  flagTrue r.missing_time || flagTrue r.invalid_time_format ||
  flagTrue r.unexpected_time || flagTrue r.invalid_volume

def get_valid_trades (t : List VRow) : List VRow := t.filter (fun r => !exceptionMask r)

/-- Method `get_trade_exceptions`: rows where some flag is set. -/
def get_trade_exceptions (t : List VRow) : List VRow := t.filter exceptionMask

end DataValidator

/-- The full validated row list produced for a raw batch (the `rows` of
the `Except.ok` result of `validate` on an unflagged table). -/
def validateRows (batch : List RawRow) : List VRow :=
  DataValidator.rowsMT (DataValidator.rowsUT (DataValidator.rowsIV
    (DataValidator.rowsITF (toDF batch).rows)))

example : DataValidator.validate (toDF []) = .ok ⟨validateRows [], true⟩ := rfl

/-! ### The `MapReduce` aggregator

`map_reduce` parses `date + " " + time` per row (`pd.to_datetime(...,
dayfirst=True)`), localizes the naive timestamps to the input zone,
buckets into 60-minute bins (`groupby(pd.Grouper(freq='60Min'))`, whose
binner runs from the first to the last populated hour edge with origin at
the local midnight of the earliest timestamp — empty intermediate bins
are kept and sum to 0), sums `volume` per bin, and renders each left bin
edge in the output zone as "HH:MM".

Timestamps are absolute minutes (`Int`); a fixed-offset zone localizes a
wall-clock value `w` to the instant `w - tz` and renders an instant `t`
as the wall clock `t + tz`. -/

/-- Input row of `map_reduce` (the valid-trades table: `volume` already
numeric per the upstream contract). -/
structure MRow where
  date : String
  time : String
  volume : ℚ
deriving DecidableEq, Repr

/-- The caller-visible table passed to `map_reduce`: its rows, plus the
`timestamp` column if present (the method adds it in place). -/
structure MRTable where
  rows : List MRow
  timestampCol : Option (List Int)
deriving DecidableEq, Repr

def parseNatDigits (cs : List Char) : Option Nat :=
  if cs ≠ [] ∧ cs.all isDigitCh then some (digitsVal cs) else none

/-- Split a character list at every occurrence of `c` (structural
counterpart of `str.split(c)`). -/
def splitOnCh (c : Char) : List Char → List (List Char)
  | [] => [[]]
  | a :: rest =>
      let r := splitOnCh c rest
      if a = c then [] :: r
      else
        match r with
        | h :: t => (a :: h) :: t
        | [] => [[a]]

def isLeapYear (y : Nat) : Bool := (y % 4 == 0 && y % 100 != 0) || y % 400 == 0

def daysInMonth (y m : Nat) : Nat :=
  if m = 2 then (if isLeapYear y then 29 else 28)
  else if m = 4 ∨ m = 6 ∨ m = 9 ∨ m = 11 then 30
  else 31

/-- Days since 1970-01-01 of a civil date (proleptic Gregorian). -/
def daysFromCivil (y m d : Nat) : Int :=
  let yy : Int := (y : Int) - (if m ≤ 2 then 1 else 0)
  let era : Int := yy / 400
  let yoe : Int := yy - era * 400
  let doy : Int := (153 * ((m : Int) + (if m > 2 then -3 else 9)) + 2) / 5 + (d : Int) - 1
  let doe : Int := yoe * 365 + yoe / 4 - yoe / 100 + doy
  era * 146097 + doe - 719468

/-- Day-first date parse of `"dd/mm/yyyy"` with calendar validation,
the fragment of `pd.to_datetime(..., dayfirst=True)` the pipeline feeds. -/
def parseDate (s : String) : Option (Nat × Nat × Nat) :=
  match splitOnCh '/' s.data with
  | [ds, ms, ys] => do
      let d ← parseNatDigits ds
      let m ← parseNatDigits ms
      let y ← parseNatDigits ys
      if ds.length ≤ 2 ∧ ms.length ≤ 2 ∧ ys.length = 4 ∧
         1 ≤ m ∧ m ≤ 12 ∧ 1 ≤ d ∧ d ≤ daysInMonth y m then some (d, m, y) else none
  | _ => none

/-- Time-of-day parse of `"H:M"`/`"HH:MM"` to minutes. -/
def parseTimeHM (s : String) : Option Nat :=
  match splitOnCh ':' s.data with
  | [hs, ms] => do
      let h ← parseNatDigits hs
      let mi ← parseNatDigits ms
      if hs.length ≤ 2 ∧ ms.length ≤ 2 ∧ h < 24 ∧ mi < 60 then some (60 * h + mi) else none
  | _ => none

/-- Naive wall-clock minutes of one row's `date` + `time`. -/
def rowWallMinutes (r : MRow) : Option Int := do
  let (d, m, y) ← parseDate r.date
  let t ← parseTimeHM r.time
  return 1440 * daysFromCivil y m d + (t : Int)

namespace MapReduce

/-- Localized timestamps of all rows (`tz_localize(input_timezone)`,
fixed offset `inTz` in minutes); `none` when `pd.to_datetime` raises on
some row. -/
def tsOf (inTz : Int) : List MRow → Option (List Int)
  | [] => some []
  | r :: rs => do
      let w ← rowWallMinutes r
      let ts ← tsOf inTz rs
      return (w - inTz) :: ts

/-- Origin `first.normalize()` with `origin='start_day'`: the instant of local
midnight of the earliest timestamp's local day. -/
def gridOrigin (inTz tmin : Int) : Int := 1440 * ((tmin + inTz) / 1440) - inTz

/-- The left edge of the first (populated) hourly bin. -/
def firstEdge (inTz tmin : Int) : Int :=
  gridOrigin inTz tmin + 60 * ((tmin - gridOrigin inTz tmin) / 60)

/-- Step `groupby(pd.Grouper(freq='60Min'))['volume'].sum()` followed
by the output-zone conversion of the left bin edges: hourly bins from the
first to the last populated hour with origin at the local midnight of the
earliest timestamp, left-closed; every bin in that span is kept (an empty
bin sums to 0). -/
def binsOut (inTz outTz : Int) (t0 : Int) (rest : List Int) (vols : List ℚ) :
    List (String × ℚ) :=
  let tmax := rest.foldl max t0
  let fe := firstEdge inTz (rest.foldl min t0)
  let nbins := ((tmax - fe) / 60).toNat + 1
  let pairs := (t0 :: rest).zip vols
  (List.range nbins).map (fun (k : Nat) =>
    let b := fe + 60 * (k : Int)
    (minutesToHHMM (((b + outTz) % 1440).toNat),
     ((pairs.filter (fun p => b ≤ p.1 && p.1 < b + 60)).map (·.2)).sum))

/-- Method `MapReduce.map_reduce`, returning the method's result together with
the caller-visible state of the argument table after the call (the
`valid_trades_df['timestamp'] = ...` assignment mutates the caller's
frame before anything else; if the parse raises, no column is added). -/
def map_reduce (inTz outTz : Int) (t : MRTable) :
    Except String (List (String × ℚ)) × MRTable :=
  match tsOf inTz t.rows with
  | none => (.error "DateParseError", t)
  | some ts =>
      let tAfter : MRTable := { rows := t.rows, timestampCol := some ts }
      match ts with
      | [] => (.ok [], tAfter)
      | t0 :: rest =>
          (.ok (binsOut inTz outTz t0 rest (t.rows.map (·.volume))), tAfter)

end MapReduce

example :
    (MapReduce.map_reduce 0 0 ⟨[⟨"01/08/2022", "00:05", 5⟩], none⟩).1 =
      .ok [("00:00", (5 : ℚ))] := by with_unfolding_all rfl

/-! ### Structure of `validate`'s output -/

namespace DataValidator

/-- Flags before the missing-time step (the `missing_time` column does not
exist yet). -/
def preVal (r : RawRow) : VRow :=
  { id := some r.id, date := some r.date, time := r.time, volume := r.volume,
    invalid_time_format := some (!_is_hh_mm_time r.time),
    invalid_volume := some ((to_numeric r.volume).isNone),
    unexpected_time := some (!canonicalSlots.contains r.time),
    missing_time := none }

/-- The image of an original batch row in the final validated table. -/
def origVal (r : RawRow) : VRow :=
  { id := some r.id, date := some r.date, time := r.time, volume := r.volume,
    invalid_time_format := some (!_is_hh_mm_time r.time),
    invalid_volume := some ((to_numeric r.volume).isNone),
    unexpected_time := some (!canonicalSlots.contains r.time),
    missing_time := some false }

/-- The canonical slots with no row in the batch, in slot order. -/
def missingSlots (batch : List RawRow) : List String :=
  canonicalSlots.filter (fun s => !((batch.map (·.time)).contains s))

/-- Values of `id`/`date` that forward-fill into the synthesized rows: those of the
last batch row (`none` for an empty batch). -/
def lastIdDate (batch : List RawRow) : Option String × Option String :=
  batch.foldl (fun _ r => (some r.id, some r.date)) (none, none)

/-- A synthesized missing-slot row after the forward fill. -/
def synthVal (pid pdate : Option String) (s : String) : VRow :=
  { id := pid, date := pdate, time := s, volume := none,
    invalid_time_format := none, invalid_volume := none,
    unexpected_time := none, missing_time := some true }

/-- Forward-fill state after scanning a list of rows. -/
def ffState (st : Option String × Option String) (xs : List VRow) :
    Option String × Option String :=
  xs.foldl (fun st r =>
    (match r.id with | some v => some v | none => st.1,
     match r.date with | some v => some v | none => st.2)) st

lemma ffillIdDate_append (lid ld : Option String) (xs ys : List VRow) :
    ffillIdDate lid ld (xs ++ ys) =
      ffillIdDate lid ld xs ++
        ffillIdDate (ffState (lid, ld) xs).1 (ffState (lid, ld) xs).2 ys := by
  induction xs generalizing lid ld with
  | nil => simp [ffillIdDate, ffState]
  | cons a l ih =>
      simp only [List.cons_append, ffillIdDate, ffState, List.foldl_cons, List.append_eq]
      rw [ih]
      rfl

lemma ffillIdDate_of_some (lid ld : Option String) (xs : List VRow)
    (h : ∀ x ∈ xs, x.id.isSome ∧ x.date.isSome) :
    ffillIdDate lid ld xs = xs := by
  induction xs generalizing lid ld with
  | nil => rfl
  | cons a l ih =>
      have ha := h a (by simp)
      obtain ⟨v, hv⟩ := Option.isSome_iff_exists.mp ha.1
      obtain ⟨w, hw⟩ := Option.isSome_iff_exists.mp ha.2
      simp only [ffillIdDate, hv, hw]
      rw [ih _ _ (fun x hx => h x (by simp [hx]))]
      congr 1
      cases a
      simp_all

lemma ffillIdDate_of_none (a b : Option String) (xs : List VRow)
    (h : ∀ x ∈ xs, x.id = none ∧ x.date = none) :
    ffillIdDate a b xs = xs.map (fun x => { x with id := a, date := b }) := by
  induction xs with
  | nil => rfl
  | cons x l ih =>
      have hx := h x (by simp)
      simp only [ffillIdDate, hx.1, hx.2, List.map_cons]
      rw [ih (fun y hy => h y (by simp [hy]))]

lemma ffState_map_origVal (st : Option String × Option String) (batch : List RawRow) :
    ffState st (batch.map origVal) =
      batch.foldl (fun _ r => (some r.id, some r.date)) st := by
  induction batch generalizing st with
  | nil => rfl
  | cons a l ih => simpa [ffState, origVal, List.foldl_cons] using ih _

/-- Shape of the validated table: the annotated original rows, in input
order, followed by one synthesized row per absent canonical slot, in slot
order, carrying the forward-filled `id`/`date` of the last batch row. -/
lemma validateRows_eq (batch : List RawRow) :
    validateRows batch =
      batch.map origVal ++
        (missingSlots batch).map
          (synthVal (lastIdDate batch).1 (lastIdDate batch).2) := by
  have hR : rowsUT (rowsIV (rowsITF (toDF batch).rows)) = batch.map preVal := by
    simp only [rowsITF, rowsIV, rowsUT, toDF, List.map_map]
    rfl
  have hset : (batch.map preVal).map
      (fun r => { r with missing_time := some false }) = batch.map origVal := by
    simp only [List.map_map]
    rfl
  have hsynth : synthRows (batch.map preVal) =
      (missingSlots batch).map (synthVal none none) := by
    simp only [synthRows, missingSlots, List.map_map]
    rfl
  have hsome : ∀ x ∈ batch.map origVal, x.id.isSome ∧ x.date.isSome := by
    intro x hx
    obtain ⟨r, _, rfl⟩ := List.mem_map.mp hx
    exact ⟨rfl, rfl⟩
  have hnone : ∀ x ∈ (missingSlots batch).map (synthVal none none),
      x.id = none ∧ x.date = none := by
    intro x hx
    obtain ⟨s, _, rfl⟩ := List.mem_map.mp hx
    exact ⟨rfl, rfl⟩
  unfold validateRows rowsMT
  rw [hR, hset, hsynth, ffillIdDate_append, ffillIdDate_of_some _ _ _ hsome,
      ffillIdDate_of_none _ _ _ hnone, ffState_map_origVal, List.map_map]
  have hlast : (batch.foldl (fun _ r => (some r.id, some r.date))
      ((none : Option String), (none : Option String))) = lastIdDate batch := rfl
  rw [hlast]
  rfl

/-- Running `validate` on a raw (unflagged) table never raises. -/
lemma validate_toDF (batch : List RawRow) :
    validate (toDF batch) = .ok ⟨validateRows batch, true⟩ := rfl

end DataValidator


/-! ### Claims C1, C2, C10 (validator shape and partition) -/

/-- Projection that drops the flag columns of a validated row. -/
def toRawRow (r : VRow) : RawRow :=
  { id := r.id.getD "", date := r.date.getD "", time := r.time, volume := r.volume }

def ex1 : List RawRow := [⟨"a1", "01/08/2022", "00:00", some "312"⟩]

/-- Claim C1: for every batch table with columns id, date, time, volume,
`validate` returns normally, and its output is every input row — id,
date, time and volume unchanged, in the original relative order —
followed only by synthesized missing-slot rows (marked
`missing_time = True`, at canonical slots absent from the batch). -/
theorem C1_validate_total_and_preserving (batch : List RawRow) :
    ∃ vdf : DF, DataValidator.validate (toDF batch) = .ok vdf ∧
      (vdf.rows.take batch.length).map (fun r => (r.id, r.date, r.time, r.volume)) =
        batch.map (fun r => (some r.id, some r.date, r.time, r.volume)) ∧
      ∀ r ∈ vdf.rows.drop batch.length,
        r.missing_time = some true ∧ r.time ∈ canonicalSlots ∧
          r.time ∉ batch.map RawRow.time := by
  refine ⟨⟨validateRows batch, true⟩, DataValidator.validate_toDF batch, ?_, ?_⟩
  · show ((validateRows batch).take batch.length).map _ = _
    rw [DataValidator.validateRows_eq, List.take_left' (by simp), List.map_map]
    rfl
  · intro r hr
    rw [DataValidator.validateRows_eq, List.drop_left' (by simp)] at hr
    obtain ⟨s, hs, rfl⟩ := List.mem_map.mp hr
    have hs' := List.mem_filter.mp hs
    refine ⟨rfl, hs'.1, ?_⟩
    have hc := hs'.2
    rw [Bool.not_eq_true'] at hc
    intro hmem
    have hmem' : (batch.map RawRow.time).contains s = true := by
      rw [List.contains_eq_any_beq, List.any_eq_true]
      exact ⟨s, hmem, by simp⟩
    rw [hmem'] at hc
    cases hc

/-- Claim C1 witness at a concrete one-row batch. -/
theorem C1_validate_total_and_preserving_witness :
    ∃ vdf : DF, DataValidator.validate (toDF ex1) = .ok vdf ∧
      (vdf.rows.take ex1.length).map (fun r => (r.id, r.date, r.time, r.volume)) =
        ex1.map (fun r => (some r.id, some r.date, r.time, r.volume)) ∧
      ∀ r ∈ vdf.rows.drop ex1.length,
        r.missing_time = some true ∧ r.time ∈ canonicalSlots ∧
          r.time ∉ ex1.map RawRow.time :=
  C1_validate_total_and_preserving ex1

def ex2 : List VRow :=
  [⟨some "a1", some "01/08/2022", "00:00", some "312", some false, some false, some false, some false⟩,
   ⟨some "a1", some "01/08/2022", "25:05", some "123", some true, some false, some true, some false⟩]

/-- Claim C2: for every validated table, `get_valid_trades` and
`get_trade_exceptions` are disjoint and their union (as a multiset) is
the table; a row is selected by `get_valid_trades` iff no flag is set and
by `get_trade_exceptions` iff at least one flag is set. -/
theorem C2_partition (t : List VRow) :
    (∀ r, ¬(r ∈ DataValidator.get_valid_trades t ∧ r ∈ DataValidator.get_trade_exceptions t)) ∧
    (DataValidator.get_valid_trades t ++ DataValidator.get_trade_exceptions t).Perm t ∧
    (∀ r ∈ t, (r ∈ DataValidator.get_valid_trades t ↔
      flagTrue r.missing_time = false ∧ flagTrue r.invalid_time_format = false ∧
      flagTrue r.unexpected_time = false ∧ flagTrue r.invalid_volume = false)) ∧
    (∀ r ∈ t, (r ∈ DataValidator.get_trade_exceptions t ↔
      (flagTrue r.missing_time = true ∨ flagTrue r.invalid_time_format = true ∨
       flagTrue r.unexpected_time = true ∨ flagTrue r.invalid_volume = true))) := by
  refine ⟨?_, ?_, ?_, ?_⟩
  · rintro r ⟨hv, he⟩
    have h1 := (List.mem_filter.mp hv).2
    have h2 := (List.mem_filter.mp he).2
    rw [h2] at h1
    cases h1
  · have h := List.filter_append_perm (fun r => !DataValidator.exceptionMask r) t
    unfold DataValidator.get_valid_trades DataValidator.get_trade_exceptions
    refine List.Perm.trans ?_ h
    apply List.Perm.append_left
    apply List.Perm.of_eq
    congr 1
    funext r
    simp
  · intro r hr
    constructor
    · intro hv
      have h1 := (List.mem_filter.mp hv).2
      simp only [DataValidator.exceptionMask, Bool.not_eq_true', Bool.or_eq_false_iff] at h1
      exact ⟨h1.1.1.1, h1.1.1.2, h1.1.2, h1.2⟩
    · intro hf
      refine List.mem_filter.mpr ⟨hr, ?_⟩
      simp only [DataValidator.exceptionMask, Bool.not_eq_true', Bool.or_eq_false_iff]
      exact ⟨⟨⟨hf.1, hf.2.1⟩, hf.2.2.1⟩, hf.2.2.2⟩
  · intro r hr
    constructor
    · intro he
      have h1 := (List.mem_filter.mp he).2
      simp only [DataValidator.exceptionMask, Bool.or_eq_true] at h1
      tauto
    · intro hf
      refine List.mem_filter.mpr ⟨hr, ?_⟩
      simp only [DataValidator.exceptionMask, Bool.or_eq_true]
      tauto

/-- Claim C2 witness at a concrete two-row validated table. -/
theorem C2_partition_witness :
    ((⟨some "a1", some "01/08/2022", "00:00", some "312", some false, some false, some false,
        some false⟩ : VRow) ∈ ex2) ∧
    ((⟨some "a1", some "01/08/2022", "00:00", some "312", some false, some false, some false,
        some false⟩ : VRow) ∈ DataValidator.get_valid_trades ex2) ∧
    (DataValidator.get_valid_trades ex2 ++ DataValidator.get_trade_exceptions ex2).Perm ex2 :=
  ⟨by decide,
   ((C2_partition ex2).2.2.1 _ (by decide)).mpr (by decide),
   (C2_partition ex2).2.1⟩

def ex10 : List RawRow := [⟨"a1", "01/08/2022", "00:00", some "312"⟩]

/-- Claim C10: every row synthesized by `validate` for a missing canonical
slot (`missing_time = True`, other flags left `NaN`) is returned by
`get_trade_exceptions` and never by `get_valid_trades`. -/
theorem C10_synth_rows_are_exceptions (batch : List RawRow) (r : VRow)
    (hr : r ∈ (validateRows batch).drop batch.length) :
    r ∈ DataValidator.get_trade_exceptions (validateRows batch) ∧
      r ∉ DataValidator.get_valid_trades (validateRows batch) := by
  have hmem : r ∈ validateRows batch := List.drop_subset _ _ hr
  rw [DataValidator.validateRows_eq, List.drop_left' (by simp)] at hr
  obtain ⟨s, _, rfl⟩ := List.mem_map.mp hr
  have hmask : DataValidator.exceptionMask
      (DataValidator.synthVal (DataValidator.lastIdDate batch).1
        (DataValidator.lastIdDate batch).2 s) = true := rfl
  constructor
  · exact List.mem_filter.mpr ⟨hmem, hmask⟩
  · intro hv
    have h1 := (List.mem_filter.mp hv).2
    rw [hmask] at h1
    cases h1

/-- Claim C10 witness: concrete batch covering only slot "00:00"; the
synthesized "00:05" row lands in the exception set. -/
theorem C10_synth_rows_are_exceptions_witness :
    (DataValidator.synthVal (some "a1") (some "01/08/2022") "00:05" ∈
      (validateRows ex10).drop ex10.length) ∧
    DataValidator.synthVal (some "a1") (some "01/08/2022") "00:05" ∈
      DataValidator.get_trade_exceptions (validateRows ex10) ∧
    DataValidator.synthVal (some "a1") (some "01/08/2022") "00:05" ∉
      DataValidator.get_valid_trades (validateRows ex10) :=
  ⟨by decide, C10_synth_rows_are_exceptions ex10 _ (by decide)⟩

/-! ### Claims C8 (re-validation) and C9 (frame effects) -/

def ex8 : List RawRow := [⟨"a1", "01/08/2022", "00:00", some "312"⟩]

/-- Claim C8 counterexample: running `validate` on the non-synthesized
rows of its own output — a table that already carries the four flag
columns — does not return normally: the `_check_unexpected_time` merge
collides on the existing `unexpected_time` column and the method raises
`KeyError` instead of reproducing the flags. -/
theorem C8_counterexample_revalidate_raises :
    (DataValidator.validate (toDF ex8)).bind
      (fun out => DataValidator.validate
        ⟨out.rows.filter (fun r => r.missing_time == some false), out.flagged⟩) =
      .error "KeyError: unexpected_time" := rfl

/-- Claim C8 (amended): applying `validate` to a table that carries the
flag columns raises the merge `KeyError`; but the flag computation itself
is idempotent — re-running `validate` on the non-synthesized output rows
with the flag columns dropped reproduces exactly the same four flag
values on those rows. -/
theorem C8_amended_flags_idempotent :
    (∀ df : DF, df.flagged = true →
        DataValidator.validate df = .error "KeyError: unexpected_time") ∧
    (∀ batch : List RawRow,
      ((validateRows (((validateRows batch).filter
            (fun r => r.missing_time == some false)).map toRawRow)).take
          ((validateRows batch).filter (fun r => r.missing_time == some false)).length).map
        (fun r => (r.invalid_time_format, r.invalid_volume, r.unexpected_time, r.missing_time)) =
      ((validateRows batch).filter (fun r => r.missing_time == some false)).map
        (fun r => (r.invalid_time_format, r.invalid_volume, r.unexpected_time, r.missing_time))) := by
  constructor
  · intro df h
    simp only [DataValidator.validate, DataValidator._check_invalid_time_format,
      DataValidator._check_invalid_volume, DataValidator._check_unexpected_time, h,
      if_true, Except.bind]
    rfl
  · intro batch
    have hns : (validateRows batch).filter (fun r => r.missing_time == some false) =
        batch.map DataValidator.origVal := by
      rw [DataValidator.validateRows_eq, List.filter_append]
      rw [List.filter_eq_self.mpr, List.filter_eq_nil_iff.mpr, List.append_nil]
      · intro a ha
        obtain ⟨s, _, rfl⟩ := List.mem_map.mp ha
        simp [DataValidator.synthVal]
      · intro a ha
        obtain ⟨s, _, rfl⟩ := List.mem_map.mp ha
        rfl
    have hback : ((validateRows batch).filter
        (fun r => r.missing_time == some false)).map toRawRow = batch := by
      rw [hns, List.map_map]
      have : (toRawRow ∘ DataValidator.origVal) = id := by
        funext r
        rfl
      rw [this, List.map_id]
    rw [hback, hns, List.length_map, DataValidator.validateRows_eq,
      List.take_left' (by simp), List.map_map]

/-- Claim C8 amended witness: a flagged table makes `validate` raise. -/
theorem C8_amended_flags_idempotent_witness :
    (DF.mk [] true).flagged = true ∧
      DataValidator.validate ⟨[], true⟩ = .error "KeyError: unexpected_time" :=
  ⟨rfl, C8_amended_flags_idempotent.1 ⟨[], true⟩ rfl⟩

def ex9 : MRTable := ⟨[⟨"01/08/2022", "00:00", 5⟩], none⟩

/-- Claim C9 counterexample: `map_reduce` does not leave the caller's
table unchanged — the in-place `valid_trades_df['timestamp'] = ...`
assignment adds a `timestamp` column to the argument. -/
theorem C9_counterexample_map_reduce_mutates :
    (MapReduce.map_reduce 0 0 ex9).2.timestampCol ≠ ex9.timestampCol := by decide

/-- Claim C9 (amended): `validate` leaves the caller's table unchanged;
`map_reduce` leaves every pre-existing column, row and value unchanged
but adds a `timestamp` column to the caller's table whenever the
date/time parse succeeds (on a parse failure it propagates the exception
with the table untouched). -/
theorem C9_amended_frame :
    (∀ df : DF, DataValidator.validate_input_after df = df) ∧
    (∀ (inTz outTz : Int) (t : MRTable),
       ((MapReduce.map_reduce inTz outTz t).2).rows = t.rows) ∧
    (∀ (inTz outTz : Int) (t : MRTable) (ts : List Int),
       MapReduce.tsOf inTz t.rows = some ts →
         ((MapReduce.map_reduce inTz outTz t).2).timestampCol = some ts) ∧
    (∀ (inTz outTz : Int) (t : MRTable),
       MapReduce.tsOf inTz t.rows = none → (MapReduce.map_reduce inTz outTz t).2 = t) := by
  refine ⟨fun _ => rfl, ?_, ?_, ?_⟩
  · intro inTz outTz t
    unfold MapReduce.map_reduce
    rcases h : MapReduce.tsOf inTz t.rows with _ | ts
    · rfl
    · rcases ts with _ | ⟨t0, rest⟩ <;> rfl
  · intro inTz outTz t ts h
    unfold MapReduce.map_reduce
    rw [h]
    rcases ts with _ | ⟨t0, rest⟩ <;> rfl
  · intro inTz outTz t h
    unfold MapReduce.map_reduce
    rw [h]

/-- Claim C9 amended witness at a concrete table and zones. -/
theorem C9_amended_frame_witness :
    MapReduce.tsOf 0 ex9.rows = some [27655200] ∧
      ((MapReduce.map_reduce 0 0 ex9).2).timestampCol = some [27655200] :=
  ⟨by decide, C9_amended_frame.2.2.1 0 0 ex9 [27655200] (by decide)⟩

/-! ### Claim C5 (scenario flags) -/

def ex5 : List RawRow :=
  [⟨"t1", "01/08/2022", "25:05", some "123"⟩,
   ⟨"t1", "01/08/2022", "00:01", none⟩,
   ⟨"t1", "01/08/2022", "00:02", some "xyz"⟩,
   ⟨"t1", "01/08/2022", "00:00", some "312"⟩]

/-- Claim C5: `unexpected_time` is true exactly when the row's time is not
one of the 288 canonical slot strings, flags are not mutually exclusive,
and on the spec scenario: time "25:05" gets `invalid_time_format` and
`unexpected_time` both true; time "00:01" gets `invalid_time_format`
false and `unexpected_time` true; an absent volume and volume "xyz" get
`invalid_volume` true; volume "312" gets it false. -/
theorem C5_scenario_flags :
    (∀ batch : List RawRow,
      ((validateRows batch).take batch.length).map (·.unexpected_time) =
        batch.map (fun r => some (!canonicalSlots.contains r.time))) ∧
    ((validateRows ex5).take 4).map
        (fun r => (r.invalid_time_format, r.unexpected_time, r.invalid_volume)) =
      [(some true, some true, some false),
       (some false, some true, some true),
       (some false, some true, some true),
       (some false, some false, some false)] := by
  constructor
  · intro batch
    rw [DataValidator.validateRows_eq, List.take_left' (by simp), List.map_map]
    rfl
  · decide

/-! ### Claim C4 (time-format flag) -/

lemma char_le_iff {a b : Char} : a ≤ b ↔ a.toNat ≤ b.toNat := Iff.rfl

lemma char_eq_iff {a b : Char} : a = b ↔ a.toNat = b.toNat :=
  ⟨fun h => by rw [h], fun h => Char.eq_of_val_eq (UInt32.toNat.inj h)⟩

lemma toNat_c0 : '0'.toNat = 48 := rfl
lemma toNat_c1 : '1'.toNat = 49 := rfl
lemma toNat_c2 : '2'.toNat = 50 := rfl
lemma toNat_c3 : '3'.toNat = 51 := rfl
lemma toNat_c5 : '5'.toNat = 53 := rfl
lemma toNat_c9 : '9'.toNat = 57 := rfl
lemma toNat_colon : ':'.toNat = 58 := rfl

/-- What the code's matcher actually accepts, stated by string shape:
hour `H` or `HH` with value 0–23, colon, minute `M` or `MM` with value
0–59 (one-digit components need not be zero-padded). -/
def laxList : List Char → Bool
  | [a, b, c] => isDigitCh a && decide (b = ':') && isDigitCh c
  | [a, b, c, d] =>
      (decide (b = ':') && isDigitCh a && isDigitCh c && isDigitCh d &&
        decide (10 * dval c + dval d < 60)) ||
      (decide (c = ':') && isDigitCh a && isDigitCh b &&
        decide (10 * dval a + dval b < 24) && isDigitCh d)
  | [a, b, c, d, e] =>
      decide (c = ':') && isDigitCh a && isDigitCh b && isDigitCh d && isDigitCh e &&
        decide (10 * dval a + dval b < 24) && decide (10 * dval d + dval e < 60)
  | _ => false

/-- Predicate `laxHHMM`: the 24-hour "H:M" shape with hours 0–23 and minutes 0–59,
one or two digits each. -/
def laxHHMM (s : String) : Bool := laxList s.data

lemma minuteMatch_le {cs : List Char} {n : Nat} (h : minuteMatch cs = some n) : n ≤ 2 := by
  match cs with
  | [] => cases h
  | [c1] =>
      unfold minuteMatch at h
      by_cases hd : isDigitCh c1 = true <;> simp [hd] at h <;> omega
  | c1 :: c2 :: rs =>
      unfold minuteMatch at h
      by_cases h1 : (('0' ≤ c1 && c1 ≤ '5') && isDigitCh c2) = true <;>
        simp [h1] at h
      · omega
      · by_cases h2 : isDigitCh c1 = true <;> simp [h2] at h
        omega

lemma restMatch_le {cs : List Char} {n : Nat} (h : restMatch cs = some n) : n ≤ 3 := by
  match cs with
  | [] => cases h
  | c :: rs =>
      unfold restMatch at h
      by_cases hc : c = ':' <;> simp [hc] at h
      obtain ⟨m, hm, rfl⟩ := h
      have := minuteMatch_le hm
      omega

lemma hmMatch_le {cs : List Char} {n : Nat} (h : hmMatch cs = some n) : n ≤ 5 := by
  unfold hmMatch at h
  rcases cs with _ | ⟨c1, _ | ⟨c2, rs⟩⟩ <;> simp only [Option.orElse_none] at h
  · cases h
  · by_cases hd : isDigitCh c1 = true <;> simp [hd] at h
    obtain ⟨m, hm, rfl⟩ := h
    have := restMatch_le hm
    omega
  · rcases h1 : (if c1 = '2' && ('0' ≤ c2 && c2 ≤ '3') then (restMatch rs).map (· + 2)
        else none) with _ | n1
    · rw [h1] at h
      simp only [Option.none_orElse] at h
      rcases h2 : (if ('0' ≤ c1 && c1 ≤ '1') && isDigitCh c2 then (restMatch rs).map (· + 2)
          else none) with _ | n2
      · rw [h2] at h
        simp only [Option.none_orElse] at h
        by_cases hd : isDigitCh c1 = true <;> simp [hd] at h
        obtain ⟨m, hm, rfl⟩ := h
        have := restMatch_le hm
        omega
      · rw [h2] at h
        simp only [Option.some_orElse, Option.some.injEq] at h
        subst h
        by_cases hcond : (('0' ≤ c1 && c1 ≤ '1') && isDigitCh c2) = true <;>
          simp [hcond] at h2
        obtain ⟨m, hm, rfl⟩ := h2
        have := restMatch_le hm
        omega
    · rw [h1] at h
      simp only [Option.some_orElse, Option.some.injEq] at h
      subst h
      by_cases hcond : (c1 = '2' && ('0' ≤ c2 && c2 ≤ '3')) = true <;> simp [hcond] at h1
      obtain ⟨m, hm, rfl⟩ := h1
      have := restMatch_le hm
      omega

lemma opt_none_eq_some {α : Type} {x : α} : ((none : Option α) = some x) ↔ False := by simp

lemma opt_some_eq_none {α : Type} {x : α} : (some x = (none : Option α)) ↔ False := by simp

set_option maxHeartbeats 4000000 in
/-- The strptime matcher consumes the whole string exactly on the lax
"H:M" shapes (hours 0–23, minutes 0–59, one- or two-digit components). -/
theorem hmMatch_full_eq_lax (cs : List Char) :
    (hmMatch cs == some cs.length) = laxList cs := by
  match cs with
  | [] => rfl
  | [a] =>
      simp only [hmMatch, restMatch, minuteMatch, laxList]
      rw [Bool.eq_iff_iff]
      split_ifs <;>
        simp [Option.map_none', Option.none_orElse, opt_none_eq_some]
  | [a, b] =>
      simp only [hmMatch, restMatch, minuteMatch, laxList]
      rw [Bool.eq_iff_iff]
      split_ifs <;>
        simp [Option.map_none', Option.map_some', Option.none_orElse, Option.some_orElse,
          opt_none_eq_some, opt_some_eq_none]
  | [a, b, c] =>
      simp only [hmMatch, restMatch, minuteMatch, laxList]
      rw [Bool.eq_iff_iff]
      split_ifs <;>
        (try simp only [isDigitCh, dval, char_le_iff, char_eq_iff, toNat_c0, toNat_c1,
          toNat_c2, toNat_c3, toNat_c5, toNat_c9, toNat_colon, Bool.and_eq_true,
          Bool.or_eq_true, decide_eq_true_eq, beq_iff_eq, Option.some.injEq,
          Option.map_none', Option.map_some', Option.none_orElse, Option.some_orElse,
          not_and, iff_true, iff_false, true_iff, false_iff, not_or, not_true,
          not_false_iff, opt_none_eq_some, opt_some_eq_none, List.length_cons,
          List.length_nil] at *) <;>
        omega
  | [a, b, c, d] =>
      simp only [hmMatch, restMatch, minuteMatch, laxList]
      rw [Bool.eq_iff_iff]
      split_ifs <;>
        (try simp only [isDigitCh, dval, char_le_iff, char_eq_iff, toNat_c0, toNat_c1,
          toNat_c2, toNat_c3, toNat_c5, toNat_c9, toNat_colon, Bool.and_eq_true,
          Bool.or_eq_true, decide_eq_true_eq, beq_iff_eq, Option.some.injEq,
          Option.map_none', Option.map_some', Option.none_orElse, Option.some_orElse,
          not_and, iff_true, iff_false, true_iff, false_iff, not_or, not_true,
          not_false_iff, opt_none_eq_some, opt_some_eq_none, List.length_cons,
          List.length_nil] at *) <;>
        omega
  | [a, b, c, d, e] =>
      simp only [hmMatch, restMatch, minuteMatch, laxList]
      rw [Bool.eq_iff_iff]
      split_ifs <;>
        (try simp only [isDigitCh, dval, char_le_iff, char_eq_iff, toNat_c0, toNat_c1,
          toNat_c2, toNat_c3, toNat_c5, toNat_c9, toNat_colon, Bool.and_eq_true,
          Bool.or_eq_true, decide_eq_true_eq, beq_iff_eq, Option.some.injEq,
          Option.map_none', Option.map_some', Option.none_orElse, Option.some_orElse,
          not_and, iff_true, iff_false, true_iff, false_iff, not_or, not_true,
          not_false_iff, opt_none_eq_some, opt_some_eq_none, List.length_cons,
          List.length_nil] at *) <;>
        omega
  | a :: b :: c :: d :: e :: f :: rest =>
      rcases h : hmMatch (a :: b :: c :: d :: e :: f :: rest) with _ | n
      · simp [laxList]
      · have hle := hmMatch_le h
        have hne : ¬n = rest.length + 1 + 1 + 1 + 1 + 1 + 1 := by omega
        simp [laxList, hne]

/-- Function `_is_hh_mm_time` accepts exactly the lax "H:M" shapes. -/
theorem is_hh_mm_eq_lax (s : String) : _is_hh_mm_time s = laxHHMM s :=
  hmMatch_full_eq_lax s.data

/-- Modelled from the spec's words, for comparison with the code: strict
24-hour "HH:MM" with two-digit zero-padded hours 0–23 and minutes 0–59. -/
def strictHHMM (s : String) : Bool :=
  match s.data with
  | [h1, h2, c, m1, m2] =>
      decide (c = ':') && isDigitCh h1 && isDigitCh h2 && isDigitCh m1 && isDigitCh m2 &&
        decide (10 * dval h1 + dval h2 < 24) && decide (10 * dval m1 + dval m2 < 60)
  | _ => false

/-- Claim C4 counterexample: the non-zero-padded time "0:05" is not a
strict two-digit "HH:MM" string, yet `validate` leaves its
`invalid_time_format` flag false (Python `strptime %H:%M` accepts
one-digit hours), so the flag is not "true exactly when the time is not
strict two-digit HH:MM". -/
theorem C4_counterexample_unpadded_time_accepted :
    strictHHMM "0:05" = false ∧
      ((validateRows [⟨"t1", "01/08/2022", "0:05", some "312"⟩]).head?.map
        (·.invalid_time_format)) = some (some false) := by
  constructor
  · decide
  · decide

/-- Claim C4 (amended): `invalid_time_format` is true exactly when the
row's time does not parse as 24-hour "H:M" with hours 0–23 and minutes
0–59 where each component may be one or two digits (zero-padding is not
required: "0:05" passes); blank, malformed, or out-of-range strings such
as "25:05" are flagged true. -/
theorem C4_amended_flag_iff_lax (batch : List RawRow) :
    ((validateRows batch).take batch.length).map (·.invalid_time_format) =
      batch.map (fun r => some (!laxHHMM r.time)) := by
  rw [DataValidator.validateRows_eq, List.take_left' (by simp), List.map_map]
  refine List.map_congr_left ?_
  intro r _
  simp only [Function.comp_apply, DataValidator.origVal, is_hh_mm_eq_lax]

/-! ### Claim C3 (grid completeness) -/

lemma digitChar_inj : ∀ a : Nat, a < 10 → ∀ b : Nat, b < 10 →
    digitChar a = digitChar b → a = b := by
  decide

lemma minutesToHHMM_inj {m n : Nat} (hm : m < 1440) (hn : n < 1440)
    (h : minutesToHHMM m = minutesToHHMM n) : m = n := by
  have hd := String.data_eq_of_eq h
  simp only [minutesToHHMM, List.cons.injEq, and_true] at hd
  obtain ⟨h1, h2, _, h4, h5⟩ := hd
  have e1 := digitChar_inj _ (by omega) _ (by omega) h1
  have e2 := digitChar_inj _ (by omega) _ (by omega) h2
  have e4 := digitChar_inj _ (by omega) _ (by omega) h4
  have e5 := digitChar_inj _ (by omega) _ (by omega) h5
  omega

lemma canonicalSlots_nodup : canonicalSlots.Nodup := by
  refine List.Nodup.map_on ?_ (List.nodup_range 288)
  intro x hx y hy h
  rw [List.mem_range] at hx hy
  have := minutesToHHMM_inj (by omega) (by omega) h
  omega

lemma canonicalSlots_length : canonicalSlots.length = 288 := by
  simp [canonicalSlots]

lemma contains_iff_mem {l : List String} {s : String} : l.contains s = true ↔ s ∈ l := by
  rw [List.contains_eq_any_beq, List.any_eq_true]
  constructor
  · rintro ⟨t, ht, he⟩
    rw [beq_iff_eq] at he
    rw [he]
    exact ht
  · intro h
    exact ⟨s, h, by simp⟩

lemma validateRows_nonsynth (batch : List RawRow) :
    (validateRows batch).filter (fun r => r.missing_time == some false) =
      batch.map DataValidator.origVal := by
  rw [DataValidator.validateRows_eq, List.filter_append]
  rw [List.filter_eq_self.mpr, List.filter_eq_nil_iff.mpr, List.append_nil]
  · intro a ha
    obtain ⟨s, _, rfl⟩ := List.mem_map.mp ha
    simp [DataValidator.synthVal]
  · intro a ha
    obtain ⟨s, _, rfl⟩ := List.mem_map.mp ha
    rfl

lemma validateRows_synthpart (batch : List RawRow) :
    (validateRows batch).filter (fun r => r.missing_time == some true) =
      (DataValidator.missingSlots batch).map
        (DataValidator.synthVal (DataValidator.lastIdDate batch).1
          (DataValidator.lastIdDate batch).2) := by
  rw [DataValidator.validateRows_eq, List.filter_append]
  rw [List.filter_eq_nil_iff.mpr, List.filter_eq_self.mpr, List.nil_append]
  · intro a ha
    obtain ⟨s, _, rfl⟩ := List.mem_map.mp ha
    rfl
  · intro a ha
    obtain ⟨s, _, rfl⟩ := List.mem_map.mp ha
    simp [DataValidator.origVal]

lemma validateRows_times (batch : List RawRow) :
    (validateRows batch).map (·.time) =
      batch.map RawRow.time ++ DataValidator.missingSlots batch := by
  rw [DataValidator.validateRows_eq, List.map_append, List.map_map, List.map_map]
  congr 1
  have : ((fun r : VRow => r.time) ∘ DataValidator.synthVal (DataValidator.lastIdDate batch).1
      (DataValidator.lastIdDate batch).2) = id := rfl
  rw [this, List.map_id]

lemma canonicalTimes_toFinset (ts : List String) :
    ((ts ++ canonicalSlots.filter (fun s => !ts.contains s)).filter
        (fun s => canonicalSlots.contains s)).toFinset = canonicalSlots.toFinset := by
  ext s
  simp only [List.mem_toFinset, List.mem_filter, List.mem_append]
  constructor
  · rintro ⟨_, hc⟩
    exact contains_iff_mem.mp hc
  · intro hs
    refine ⟨?_, contains_iff_mem.mpr hs⟩
    by_cases ht : s ∈ ts
    · exact Or.inl ht
    · refine Or.inr ⟨hs, ?_⟩
      rw [Bool.not_eq_true', Bool.eq_false_iff]
      intro hc
      exact ht (contains_iff_mem.mp hc)

def ex3 : List RawRow := [⟨"t1", "01/08/2022", "00:00", some "1"⟩]

set_option maxRecDepth 100000 in
/-- Claim C3 counterexample: for the one-row batch at slot "00:00" the
number of distinct time values among the canonical-slot rows of
`validate(batch)` is 288 (every absent slot was synthesized), while the
claimed value 288 minus the count of `missing_time=true` rows is
288 − 287 = 1. -/
theorem C3_counterexample_distinct_count :
    (((validateRows ex3).map (·.time)).filter
        (fun s => canonicalSlots.contains s)).dedup.length = 288 ∧
    ((validateRows ex3).filter (fun r => r.missing_time == some true)).length = 287 ∧
    ¬(288 : Nat) = 288 - 287 := by
  refine ⟨?_, ?_, by omega⟩
  · rw [validateRows_times]
    calc ((ex3.map RawRow.time ++ DataValidator.missingSlots ex3).filter
            (fun s => canonicalSlots.contains s)).dedup.length
        = ((ex3.map RawRow.time ++ DataValidator.missingSlots ex3).filter
            (fun s => canonicalSlots.contains s)).toFinset.card :=
          (List.card_toFinset _).symm
      _ = canonicalSlots.toFinset.card :=
          congrArg Finset.card (canonicalTimes_toFinset (ex3.map RawRow.time))
      _ = canonicalSlots.dedup.length := List.card_toFinset _
      _ = canonicalSlots.length := by rw [canonicalSlots_nodup.dedup]
      _ = 288 := canonicalSlots_length
  · rw [validateRows_synthpart, List.length_map]
    decide

/-- Claim C3 (amended): every one of the 288 canonical slots appears
among the output's canonical-slot rows — their distinct `time` count is
exactly 288 — and restricted to the non-synthesized rows
(`missing_time=false`) the distinct canonical `time` count equals 288
minus the number of `missing_time=true` rows. -/
theorem C3_amended_grid_complete (batch : List RawRow) :
    (((validateRows batch).map (·.time)).filter
        (fun s => canonicalSlots.contains s)).dedup.length = 288 ∧
    ((((validateRows batch).filter (fun r => r.missing_time == some false)).map
        (·.time)).filter (fun s => canonicalSlots.contains s)).dedup.length =
      288 - ((validateRows batch).filter (fun r => r.missing_time == some true)).length := by
  constructor
  · rw [validateRows_times]
    calc ((batch.map RawRow.time ++ DataValidator.missingSlots batch).filter
            (fun s => canonicalSlots.contains s)).dedup.length
        = ((batch.map RawRow.time ++ DataValidator.missingSlots batch).filter
            (fun s => canonicalSlots.contains s)).toFinset.card :=
          (List.card_toFinset _).symm
      _ = canonicalSlots.toFinset.card :=
          congrArg Finset.card (canonicalTimes_toFinset (batch.map RawRow.time))
      _ = canonicalSlots.dedup.length := List.card_toFinset _
      _ = canonicalSlots.length := by rw [canonicalSlots_nodup.dedup]
      _ = 288 := canonicalSlots_length
  · rw [validateRows_nonsynth, validateRows_synthpart, List.length_map, List.map_map]
    have hco : ((fun r : VRow => r.time) ∘ DataValidator.origVal) = RawRow.time := rfl
    rw [hco]
    have hsplit := List.length_eq_length_filter_add
      (l := canonicalSlots) (fun s => (batch.map RawRow.time).contains s)
    have hnodup : (canonicalSlots.filter
        (fun s => (batch.map RawRow.time).contains s)).Nodup :=
      canonicalSlots_nodup.filter _
    have hLHS : ((batch.map RawRow.time).filter
          (fun s => canonicalSlots.contains s)).toFinset =
        (canonicalSlots.filter (fun s => (batch.map RawRow.time).contains s)).toFinset := by
      ext s
      simp only [List.mem_toFinset, List.mem_filter]
      constructor
      · rintro ⟨h1, h2⟩
        exact ⟨contains_iff_mem.mp h2, contains_iff_mem.mpr h1⟩
      · rintro ⟨h1, h2⟩
        exact ⟨contains_iff_mem.mp h2, contains_iff_mem.mpr h1⟩
    have hmlen : (DataValidator.missingSlots batch).length =
        (canonicalSlots.filter
          (fun s => !((batch.map RawRow.time).contains s))).length := rfl
    have hlhs2 : ((batch.map RawRow.time).filter
          (fun s => canonicalSlots.contains s)).dedup.length =
        (canonicalSlots.filter (fun s => (batch.map RawRow.time).contains s)).length := by
      calc ((batch.map RawRow.time).filter (fun s => canonicalSlots.contains s)).dedup.length
          = ((batch.map RawRow.time).filter
              (fun s => canonicalSlots.contains s)).toFinset.card :=
            (List.card_toFinset _).symm
        _ = (canonicalSlots.filter
              (fun s => (batch.map RawRow.time).contains s)).toFinset.card := by rw [hLHS]
        _ = (canonicalSlots.filter
              (fun s => (batch.map RawRow.time).contains s)).length :=
            List.toFinset_card_of_nodup hnodup
    rw [hlhs2, hmlen]
    have h288 := canonicalSlots_length
    omega

/-! ### Claims C6 and C7 (hourly aggregation) -/

lemma tsOf_length {inTz : Int} :
    ∀ {rows : List MRow} {ts : List Int},
      MapReduce.tsOf inTz rows = some ts → ts.length = rows.length := by
  intro rows
  induction rows with
  | nil =>
      intro ts h
      simp only [MapReduce.tsOf, Option.some.injEq] at h
      subst h
      rfl
  | cons r rs ih =>
      intro ts h
      simp only [MapReduce.tsOf, Option.bind_eq_bind, Option.bind_eq_some,
        Option.pure_def, Option.some.injEq] at h
      obtain ⟨w, _, ts', hts', rfl⟩ := h
      simp [ih hts']

lemma foldl_min_le {l : List Int} {a : Int} : ∀ x ∈ a :: l, l.foldl min a ≤ x := by
  induction l generalizing a with
  | nil =>
      intro x hx
      rcases List.mem_cons.mp hx with rfl | hx
      · exact le_refl x
      · cases hx
  | cons b l ih =>
      intro x hx
      have hmin : l.foldl min (min a b) ≤ min a b := ih (min a b) (List.mem_cons_self _ _)
      rcases List.mem_cons.mp hx with rfl | hx
      · exact le_trans hmin (min_le_left _ _)
      · rcases List.mem_cons.mp hx with rfl | hx
        · exact le_trans hmin (min_le_right _ _)
        · exact ih x (List.mem_cons_of_mem _ hx)

lemma le_foldl_max {l : List Int} {a : Int} : ∀ x ∈ a :: l, x ≤ l.foldl max a := by
  induction l generalizing a with
  | nil =>
      intro x hx
      rcases List.mem_cons.mp hx with rfl | hx
      · exact le_refl x
      · cases hx
  | cons b l ih =>
      intro x hx
      have hmax : max a b ≤ l.foldl max (max a b) := ih (max a b) (List.mem_cons_self _ _)
      rcases List.mem_cons.mp hx with rfl | hx
      · exact le_trans (le_max_left _ _) hmax
      · rcases List.mem_cons.mp hx with rfl | hx
        · exact le_trans (le_max_right _ _) hmax
        · exact ih x (List.mem_cons_of_mem _ hx)

lemma map_snd_zip_eq {α β : Type} :
    ∀ {l1 : List α} {l2 : List β}, l1.length = l2.length →
      ((l1.zip l2).map Prod.snd) = l2 := by
  intro l1
  induction l1 with
  | nil =>
      intro l2 h
      cases l2
      · rfl
      · cases h
  | cons a l ih =>
      intro l2 h
      cases l2 with
      | nil => cases h
      | cons b l2 =>
          simp only [List.zip_cons_cons, List.map_cons]
          rw [ih (by simpa using h)]

lemma sum_map_ite_mem {ks : List Int} (hnd : ks.Nodup) {k0 : Int} (hk : k0 ∈ ks)
    (v : ℚ) (S : Int → ℚ) :
    (ks.map (fun k => if k0 = k then v + S k else S k)).sum = v + (ks.map S).sum := by
  induction ks with
  | nil => cases hk
  | cons a l ih =>
      rw [List.map_cons, List.map_cons, List.sum_cons, List.sum_cons]
      rcases List.mem_cons.mp hk with rfl | hk'
      · rw [if_pos rfl]
        have hnotin : k0 ∉ l := (List.nodup_cons.mp hnd).1
        have hrest : l.map (fun k => if k0 = k then v + S k else S k) = l.map S := by
          refine List.map_congr_left (fun x hx => if_neg ?_)
          intro he
          apply hnotin
          rw [he]
          exact hx
        rw [hrest]
        ring
      · have hne : k0 ≠ a := by
          intro he
          apply (List.nodup_cons.mp hnd).1
          rw [← he]
          exact hk'
        rw [if_neg hne, ih (List.nodup_cons.mp hnd).2 hk']
        ring

lemma sum_fiberwise_eq {α : Type} (key : α → Int) (vol : α → ℚ) :
    ∀ (xs : List α) (ks : List Int), ks.Nodup → (∀ x ∈ xs, key x ∈ ks) →
      (ks.map (fun k => ((xs.filter (fun x => key x == k)).map vol).sum)).sum =
        (xs.map vol).sum := by
  intro xs
  induction xs with
  | nil =>
      intro ks _ _
      simp
  | cons x l ih =>
      intro ks hnd hcov
      have hx := hcov x (List.mem_cons_self x l)
      have hl : ∀ y ∈ l, key y ∈ ks := fun y hy => hcov y (List.mem_cons_of_mem _ hy)
      have hstep : ks.map (fun k => (((x :: l).filter (fun y => key y == k)).map vol).sum) =
          ks.map (fun k =>
            if key x = k then vol x + ((l.filter (fun y => key y == k)).map vol).sum
            else ((l.filter (fun y => key y == k)).map vol).sum) := by
        refine List.map_congr_left (fun k _ => ?_)
        rw [List.filter_cons]
        by_cases hk : key x = k
        · simp [hk]
        · simp [hk]
      rw [hstep, sum_map_ite_mem hnd hx, ih ks hnd hl, List.map_cons, List.sum_cons]

/-- Hour-floor of a timestamp relative to the grid's first edge. -/
def MapReduce.hourBucket (fe x : Int) : Int := fe + 60 * ((x - fe) / 60)

/-- The ascending list of hourly bin edges actually emitted: from the
first to the last populated hour inclusive. -/
def MapReduce.bucketEdges (fe tmax : Int) : List Int :=
  (List.range (((tmax - fe) / 60).toNat + 1)).map (fun (k : Nat) => fe + 60 * (k : Int))

lemma firstEdge_le {inTz tmin : Int} : MapReduce.firstEdge inTz tmin ≤ tmin := by
  unfold MapReduce.firstEdge MapReduce.gridOrigin
  omega

lemma interval_filter_eq_bucket (fe : Int) (k : Nat) (pairs : List (Int × ℚ)) :
    pairs.filter (fun p => fe + 60 * (k : Int) ≤ p.1 && p.1 < fe + 60 * (k : Int) + 60) =
      pairs.filter (fun p => MapReduce.hourBucket fe p.1 == fe + 60 * (k : Int)) := by
  apply List.filter_congr
  intro p _
  rw [Bool.eq_iff_iff, Bool.and_eq_true, decide_eq_true_eq, decide_eq_true_eq, beq_iff_eq]
  unfold MapReduce.hourBucket
  omega

lemma bucket_mem_edges {fe tmin tmax x : Int}
    (hfe : fe ≤ tmin) (hx1 : tmin ≤ x) (hx2 : x ≤ tmax) :
    MapReduce.hourBucket fe x ∈ MapReduce.bucketEdges fe tmax := by
  have hk : ((x - fe) / 60).toNat < ((tmax - fe) / 60).toNat + 1 := by omega
  have heq : MapReduce.hourBucket fe x =
      fe + 60 * ((((x - fe) / 60).toNat : Nat) : Int) := by
    unfold MapReduce.hourBucket
    omega
  rw [heq]
  unfold MapReduce.bucketEdges
  exact List.mem_map_of_mem _ (List.mem_range.mpr hk)

lemma bucketEdges_nodup (fe tmax : Int) : (MapReduce.bucketEdges fe tmax).Nodup := by
  unfold MapReduce.bucketEdges
  refine List.Nodup.map_on ?_ (List.nodup_range _)
  intro x _ y _ h
  omega

lemma range_bins_sum (fe tmin tmax : Int) (pairs : List (Int × ℚ))
    (hfe : fe ≤ tmin) (hbound : ∀ p ∈ pairs, tmin ≤ p.1 ∧ p.1 ≤ tmax)
    (lbl : Int → String) :
    (((List.range (((tmax - fe) / 60).toNat + 1)).map (fun (k : Nat) =>
      (lbl (fe + 60 * (k : Int)),
       ((pairs.filter (fun p => fe + 60 * (k : Int) ≤ p.1 &&
           p.1 < fe + 60 * (k : Int) + 60)).map (·.2)).sum))).map (·.2)).sum =
      (pairs.map (·.2)).sum := by
  have hstep : (List.range (((tmax - fe) / 60).toNat + 1)).map (fun (k : Nat) =>
      (lbl (fe + 60 * (k : Int)),
       ((pairs.filter (fun p => fe + 60 * (k : Int) ≤ p.1 &&
           p.1 < fe + 60 * (k : Int) + 60)).map (·.2)).sum)) =
      (List.range (((tmax - fe) / 60).toNat + 1)).map (fun (k : Nat) =>
      (lbl (fe + 60 * (k : Int)),
       ((pairs.filter (fun p => MapReduce.hourBucket fe p.1 ==
           fe + 60 * (k : Int))).map (·.2)).sum)) := by
    refine List.map_congr_left (fun k _ => ?_)
    rw [interval_filter_eq_bucket]
  rw [hstep, List.map_map]
  show ((List.range (((tmax - fe) / 60).toNat + 1)).map (fun (k : Nat) =>
      ((pairs.filter (fun p => MapReduce.hourBucket fe p.1 ==
          fe + 60 * (k : Int))).map (·.2)).sum)).sum = (pairs.map (·.2)).sum
  have hmm2 : (List.range (((tmax - fe) / 60).toNat + 1)).map (fun (k : Nat) =>
      ((pairs.filter (fun p => MapReduce.hourBucket fe p.1 ==
          fe + 60 * (k : Int))).map (·.2)).sum) =
      (MapReduce.bucketEdges fe tmax).map (fun b =>
        ((pairs.filter (fun p => MapReduce.hourBucket fe p.1 == b)).map (·.2)).sum) := by
    unfold MapReduce.bucketEdges
    rw [List.map_map]
    rfl
  rw [hmm2]
  refine sum_fiberwise_eq _ _ pairs _ (bucketEdges_nodup fe tmax) ?_
  intro p hp
  exact bucket_mem_edges hfe (hbound p hp).1 (hbound p hp).2

lemma binsOut_sum (inTz outTz t0 : Int) (rest : List Int) (vols : List ℚ)
    (hlen : rest.length + 1 = vols.length) :
    ((MapReduce.binsOut inTz outTz t0 rest vols).map (·.2)).sum = vols.sum := by
  have hb : ∀ p ∈ (t0 :: rest).zip vols,
      rest.foldl min t0 ≤ p.1 ∧ p.1 ≤ rest.foldl max t0 := by
    intro p hp
    rcases p with ⟨px, pv⟩
    have hmem := (List.of_mem_zip hp).1
    exact ⟨foldl_min_le px hmem, le_foldl_max px hmem⟩
  have hmain := range_bins_sum (MapReduce.firstEdge inTz (rest.foldl min t0))
    (rest.foldl min t0) (rest.foldl max t0) ((t0 :: rest).zip vols) firstEdge_le hb
    (fun b => minutesToHHMM (((b + outTz) % 1440).toNat))
  have hz : (((t0 :: rest).zip vols).map (·.2)) = vols :=
    map_snd_zip_eq (by simp [← hlen])
  rw [hz] at hmain
  exact hmain

/-- Claim C6: for every input table of rows with numeric volumes and
every zone pair, if `map_reduce` returns a result then the sum of its
`Volume` column equals the sum of the input `volume` column (conservation
under hourly re-bucketing and zone relabeling). -/
theorem C6_volume_conservation (inTz outTz : Int) (t : MRTable)
    (out : List (String × ℚ)) (h : (MapReduce.map_reduce inTz outTz t).1 = .ok out) :
    (out.map (·.2)).sum = (t.rows.map (·.volume)).sum := by
  unfold MapReduce.map_reduce at h
  rcases hts : MapReduce.tsOf inTz t.rows with _ | ts
  · rw [hts] at h
    cases h
  · rw [hts] at h
    rcases ts with _ | ⟨t0, rest⟩
    · have h' : (Except.ok [] : Except String (List (String × ℚ))) = .ok out := h
      have hlen := tsOf_length hts
      have hnil : t.rows = [] := by
        cases hr : t.rows with
        | nil => rfl
        | cons a l =>
            rw [hr] at hlen
            simp at hlen
      cases h'
      rw [hnil]
      simp
    · have h' : (Except.ok (MapReduce.binsOut inTz outTz t0 rest (t.rows.map (·.volume))) :
          Except String (List (String × ℚ))) = .ok out := h
      have hlen := tsOf_length hts
      cases h'
      exact binsOut_sum inTz outTz t0 rest (t.rows.map (·.volume)) (by simp_all)

def ex6 : MRTable := ⟨[⟨"01/08/2022", "00:05", 1⟩, ⟨"01/08/2022", "00:10", 2⟩], none⟩

/-- Claim C6 witness at a concrete table and zones. -/
theorem C6_volume_conservation_witness :
    (MapReduce.map_reduce 0 0 ex6).1 = .ok [("00:00", (3 : ℚ))] ∧
      (([("00:00", (3 : ℚ))].map (·.2)).sum = (ex6.rows.map (·.volume)).sum) :=
  ⟨by with_unfolding_all rfl,
   C6_volume_conservation 0 0 ex6 [("00:00", (3 : ℚ))] (by with_unfolding_all rfl)⟩

def ex7 : MRTable := ⟨[⟨"01/08/2022", "00:05", 1⟩, ⟨"01/08/2022", "02:05", 2⟩], none⟩

/-- Claim C7 counterexample: with rows only in the 00:00 and 02:00 hours,
`map_reduce` emits three rows — the hour 01:00, which contains no input
row, is emitted with Volume 0 rather than suppressed. -/
theorem C7_counterexample_empty_bucket_emitted :
    (MapReduce.map_reduce 0 0 ex7).1 =
      .ok [("00:00", (1 : ℚ)), ("01:00", (0 : ℚ)), ("02:00", (2 : ℚ))] ∧
    MapReduce.tsOf 0 ex7.rows = some [27655205, 27655325] ∧
    ([27655205, 27655325].all
      (fun x => !((27655260 : Int) ≤ x && x < 27655320))) = true := by
  refine ⟨by with_unfolding_all rfl, by decide, by decide⟩

/-- Claim C7 (amended): on a nonempty parseable table `map_reduce` emits
exactly one row per hourly bucket from the first populated hour's edge to
the last populated hour's edge inclusive, in ascending (chronological)
order of the input-zone bucket boundaries; each row's Volume is the sum
over the rows whose hour-floor is that boundary, so an hour with no rows
lying between two populated hours yields a row with Volume 0, while
hours outside the populated span yield none; every populated bucket's
boundary is among the emitted edges. -/
theorem C7_amended_hourly_bins (inTz outTz : Int) (t : MRTable) (t0 : Int)
    (rest : List Int) (hts : MapReduce.tsOf inTz t.rows = some (t0 :: rest)) :
    (MapReduce.map_reduce inTz outTz t).1 = .ok
      ((List.range (((rest.foldl max t0 -
          MapReduce.firstEdge inTz (rest.foldl min t0)) / 60).toNat + 1)).map
        (fun (k : Nat) =>
          (minutesToHHMM (((MapReduce.firstEdge inTz (rest.foldl min t0) + 60 * (k : Int) +
              outTz) % 1440).toNat),
           ((((t0 :: rest).zip (t.rows.map (·.volume))).filter
              (fun p => MapReduce.hourBucket
                  (MapReduce.firstEdge inTz (rest.foldl min t0)) p.1 ==
                MapReduce.firstEdge inTz (rest.foldl min t0) + 60 * (k : Int))).map
             (·.2)).sum))) ∧
    ∀ p ∈ (t0 :: rest).zip (t.rows.map (·.volume)),
      MapReduce.hourBucket (MapReduce.firstEdge inTz (rest.foldl min t0)) p.1 ∈
        MapReduce.bucketEdges (MapReduce.firstEdge inTz (rest.foldl min t0))
          (rest.foldl max t0) := by
  constructor
  · unfold MapReduce.map_reduce
    rw [hts]
    show Except.ok (MapReduce.binsOut inTz outTz t0 rest (t.rows.map (·.volume))) = _
    congr 1
    unfold MapReduce.binsOut
    refine List.map_congr_left (fun k _ => ?_)
    simp only [interval_filter_eq_bucket]
  · intro p hp
    rcases p with ⟨px, pv⟩
    have hmem := (List.of_mem_zip hp).1
    exact bucket_mem_edges firstEdge_le (foldl_min_le px hmem) (le_foldl_max px hmem)

def ex7b : MRTable := ⟨[⟨"01/08/2022", "00:05", 5⟩], none⟩

/-- Claim C7 amended witness at a concrete one-row table. -/
theorem C7_amended_hourly_bins_witness :
    MapReduce.tsOf 0 ex7b.rows = some [27655205] ∧
      (MapReduce.map_reduce 0 0 ex7b).1 = .ok
        ((List.range (((([] : List Int).foldl max 27655205 -
            MapReduce.firstEdge 0 (([] : List Int).foldl min 27655205)) / 60).toNat + 1)).map
          (fun (k : Nat) =>
            (minutesToHHMM (((MapReduce.firstEdge 0 (([] : List Int).foldl min 27655205) +
                60 * (k : Int) + 0) % 1440).toNat),
             ((((27655205 :: ([] : List Int)).zip (ex7b.rows.map (·.volume))).filter
                (fun p => MapReduce.hourBucket
                    (MapReduce.firstEdge 0 (([] : List Int).foldl min 27655205)) p.1 ==
                  MapReduce.firstEdge 0 (([] : List Int).foldl min 27655205) +
                    60 * (k : Int))).map (·.2)).sum))) :=
  ⟨by decide, (C7_amended_hourly_bins 0 0 ex7b 27655205 [] (by decide)).1⟩
